import Mathlib

/-!
Verification development for the `serverless-esbuild-layers` plugin core
(`src/utils.ts`).

The TypeScript source is shallowly embedded: JavaScript strings become
`String`, arrays become `List`, the insertion-ordered `Set` becomes a list
built with a membership-guarded append, `async` functions that can reject
become `Except String`-valued functions, and every external collaborator
(the filesystem, the `glob` library, the esbuild bundler, the dynamic
plugin loader, the `is-builtin-module` predicate and the
`DEFAULT_AWS_MODULES` constant, which live outside `src/utils.ts`) is a
parameter, so that the theorems quantify over all of their behaviours.

Path handling caveat: `path.join` / `path.resolve` are modelled for inputs
that contain no `.` / `..` segments and no duplicate slashes (the shapes
the plugin actually produces); the working directory `process.cwd()` is
modelled as the constant `"/cwd"`.
-/

/-- JavaScript `haystack.startsWith(needle)` (`String.prototype.startsWith`). -/
def strStartsWith (s pre : String) : Bool :=
  pre.data.isPrefixOf s.data

/-- JavaScript `str.split(sep)` for a single-character separator, on the
underlying character list: `"a/b"` splits to `["a", "b"]`, `""` to `[""]`,
a trailing separator yields a trailing empty piece.  The result is never
the empty list. -/
def jsSplitCh (sep : Char) : List Char → List (List Char)
  | [] => [[]]
  | c :: rest =>
    if c = sep then [] :: jsSplitCh sep rest
    else
      match jsSplitCh sep rest with
      | [] => [[c]]
      | p :: ps => (c :: p) :: ps

/-- JavaScript `Set.prototype.add` on an insertion-ordered list model:
adding an element that is already present is a no-op, a new element goes
to the end. -/
def setAdd (l : List String) (x : String) : List String :=
  if x ∈ l then l else l ++ [x]

/-- JavaScript `Array.from(new Set(list))`: deduplicate keeping the first
occurrence of each element, preserving insertion order. -/
def jsSetFrom (l : List String) : List String :=
  l.foldl setAdd []

/-- JavaScript `haystack.replace(needle, '')` for a plain-string needle:
remove the first occurrence of `needle` (if any) from `haystack`. -/
def removeFirstOcc : List Char → List Char → List Char
  | [], _ => []
  | c :: rest, needle =>
    if needle.isPrefixOf (c :: rest) then (c :: rest).drop needle.length
    else c :: removeFirstOcc rest needle

/-- Node `path.join(a, b)` restricted to arguments without `.`/`..`
segments or duplicate slashes. -/
def path_join (a b : String) : String :=
  if a = "" then b
  else if a.data.getLast? = some '/' then a ++ b
  else a ++ "/" ++ b

/-- Node `path.resolve(p)` restricted to arguments without `.`/`..`
segments, with `process.cwd()` modelled as `"/cwd"`. -/
def path_resolve (p : String) : String :=
  if p = "" then "/cwd"
  else if p.data.head? = some '/' then p
  else "/cwd/" ++ p

/-- JavaScript `folderName.replace(/\/$/, '')`: drop a single trailing
slash when present. -/
def stripTrailingSlash (s : String) : String :=
  if s.data.getLast? = some '/' then String.mk s.data.dropLast else s

/-- Embedding of `fixModuleName` (src/utils.ts lines 196-203).  The source
destructures `mod.split('/')`; when a scoped name has no `/` the second
destructured variable is JavaScript `undefined`, and the template literal
renders it as the string `"undefined"`.  The `[]` branches are unreachable
because a split result is never empty. -/
def fixModuleName (mod : String) : String :=
  if strStartsWith mod "@" then
    match jsSplitCh '/' mod.data with
    | g :: p :: _ => String.mk g ++ "/" ++ String.mk p
    | [g] => String.mk g ++ "/undefined"
    | [] => "undefined/undefined"
  else
    match jsSplitCh '/' mod.data with
    | p :: _ => String.mk p
    | [] => "undefined"

/-- Joining name segments with `/`, following the spec's words "segments
joined by `/`" (used only by the spec-side normalizer below). -/
def joinSlash : List String → String
  | [] => ""
  | [a] => a
  | a :: rest => a ++ "/" ++ joinSlash rest

/-- Modelled from the spec (section 4.1 Module Name Normalizer), for
comparison with `fixModuleName`: a scoped specifier maps to its first two
`/`-delimited segments joined by `/`, any other specifier to its first
segment. -/
def normalize_spec (mod : String) : String :=
  let parts := (jsSplitCh '/' mod.data).map String.mk
  if strStartsWith mod "@" then joinSlash (parts.take 2)
  else joinSlash (parts.take 1)

/-- Plugin configuration relevant to `getExternalModules` (the remaining
`Config` fields of `src/types.ts` are not read by the embedded code). -/
structure Config where
  forceInclude : List String
  forceExclude : List String

/-- Embedding of the final dependency-filter stage of `getExternalModules`
(src/utils.ts lines 168-177): deduplicate the raw specifiers that are not
runtime built-ins through an insertion-ordered `Set` after normalizing
them, drop the default AWS modules and the force-excluded names, then
append `config.forceInclude`.  The `is-builtin-module` predicate and the
`DEFAULT_AWS_MODULES` list live outside `src/utils.ts` and are taken as
parameters. -/
def filterStage (isBuiltin : String → Bool) (defaultAwsModules : List String)
    (config : Config) (raw : List String) : List String :=
  let imports := jsSetFrom ((raw.filter (fun m => !isBuiltin m)).map fixModuleName)
  (imports.filter (fun dep =>
      !defaultAwsModules.contains dep && !config.forceExclude.contains dep))
    ++ config.forceInclude

/-- Abstract filesystem collaborator.  `glob pat` returns the names
(`withFileTypes` dirent names) of the entries matching the pattern;
`readdir d` returns the entry names of directory `d`, or `none` when the
call rejects (e.g. the directory does not exist); `existsFile p` says
whether the absolute path `p` exists on disk. -/
structure FileSys where
  glob : String → List String
  readdir : String → Option (List String)
  existsFile : String → Bool

/-- True for JavaScript regex `\w` characters (ASCII letters, digits, `_`). -/
def isWordChar (c : Char) : Bool :=
  c.isAlphanum || c = '_'

/-- Embedding of `pattern.replace(/\.(?!(?:j|t)sx?$)\w+$/, '.@(ts|js)?(x)')`
from `globPromise` (src/utils.ts line 38): when the pattern ends in a dot
followed by one or more word characters that are not exactly `js`, `jsx`,
`ts` or `tsx`, that final extension is rewritten to the glob alternation
`.@(ts|js)?(x)`.  Only the last dot can carry the match because `\w`
matches neither `.` nor `/`. -/
def jsRewriteExt (s : List Char) : List Char :=
  let rev := s.reverse
  let sufR := rev.takeWhile (fun c => c ≠ '.')
  let restR := rev.dropWhile (fun c => c ≠ '.')
  match restR with
  | '.' :: preR =>
    let suf := sufR.reverse
    if suf ≠ [] ∧ (∀ c ∈ suf, isWordChar c)
        ∧ suf ∉ [['j','s'], ['j','s','x'], ['t','s'], ['t','s','x']] then
      preR.reverse ++ '.' :: "@(ts|js)?(x)".data
    else s
  | _ => s

/-- Embedding of `pattern.replace(/(.+)\/.+$/, (_full, match) => match)`
from `globPromise` (src/utils.ts line 39): keep everything before the last
slash that has at least one character on both sides; when no slash
qualifies the pattern is returned unchanged.  (Patterns containing newline
characters are outside the model, as `.` does not match them.) -/
def jsBasePath (s : List Char) : List Char :=
  let n := s.length
  let idxs := (List.range n).filter (fun i => s.getD i ' ' = '/' ∧ 1 ≤ i ∧ i + 2 ≤ n)
  match idxs.getLast? with
  | some i => s.take i
  | none => s

/-- Embedding of `globPromise` (src/utils.ts lines 37-41): glob for the
extension-rewritten pattern, then join each returned entry name onto the
base path computed from the original pattern (empty when the pattern has
no slash). -/
def globPromise (fs : FileSys) (pattern : String) : List String :=
  let paths := fs.glob (String.mk (jsRewriteExt pattern.data))
  let basePath := if pattern.data.contains '/' then String.mk (jsBasePath pattern.data) else ""
  paths.map (fun name => path_join basePath name)

/-- Argument shape of `findEntriesSpecified`: the TypeScript signature says
`string | string[]`, but callers can pass anything (the tests pass the
number `123`); `other` stands for any value that is neither a string nor
an array. -/
inductive EntrySpec where
  | str (s : String)
  | list (l : List String)
  | other

/-- Shared tail of `findEntriesSpecified` once the input has been
normalized to an array: return `[]` for an empty array, otherwise glob
every entry and concatenate the results in order (`reduce` with `[]`). -/
def findEntriesList (fs : FileSys) (entries : List String) : List String :=
  if entries.length = 0 then []
  else (entries.map (globPromise fs)).foldl (fun arr list => arr ++ list) []

/-- Embedding of `findEntriesSpecified` (src/utils.ts lines 48-59): a
string is wrapped into a one-element array; a non-string non-array input
fails the `Array.isArray` guard and yields `[]`. -/
def findEntriesSpecified (fs : FileSys) : EntrySpec → List String
  | .str s => findEntriesList fs [s]
  | .list l => findEntriesList fs l
  | .other => []

/-- One greedy step of the chunk group `(?:[^\/\n]+\/)+` of the handler
regex (src/utils.ts line 83): consume a nonempty newline-free segment up
to and including the next `/`; fail when the next `/` is immediately at
the cursor, absent, or preceded by a newline. -/
def splitSeg (s : List Char) : Option (List Char × List Char) :=
  let seg := s.takeWhile (fun c => c ≠ '/')
  match s.dropWhile (fun c => c ≠ '/') with
  | _ :: rest2 =>
    -- the dropped-to character is necessarily the `/` closing the segment
    if seg ≠ [] ∧ '\n' ∉ seg then some (seg ++ ['/'], rest2) else none
  | [] => none

theorem splitSeg_length_lt {s c r} (h : splitSeg s = some (c, r)) :
    r.length < s.length := by
  unfold splitSeg at h
  rcases hrest : s.dropWhile (fun c => c ≠ '/') with _ | ⟨hd, tl⟩ <;>
    rw [hrest] at h <;> dsimp only at h
  · exact absurd h (by simp)
  · split at h
    · simp only [Option.some.injEq, Prod.mk.injEq] at h
      obtain ⟨-, hr⟩ := h
      subst hr
      have hle : (s.dropWhile (fun c => c ≠ '/')).length ≤ s.length :=
        (List.dropWhile_sublist _).length_le
      rw [hrest] at hle
      simpa using Nat.lt_of_lt_of_le (Nat.lt_succ_self tl.length) hle
    · exact absurd h (by simp)

/-- Fuel-driven recursion for `chunksOf`; `splitSeg` strictly shrinks the
string, so `s.length` fuel always suffices. -/
def chunksOfFuel : Nat → List Char → List (List Char)
  | 0, _ => []
  | fuel + 1, s =>
    match splitSeg s with
    | none => []
    | some (c, r) => c :: chunksOfFuel fuel r

/-- Maximal run of chunks matched by the greedy `(?:[^\/\n]+\/)+` group at
the start of the handler string. -/
def chunksOf (s : List Char) : List (List Char) :=
  chunksOfFuel s.length s

/-- Optional extension group `(.jsx?|.tsx?)` of the handler regex: an
arbitrary character followed by `js` or `ts` and a greedy optional `x`;
empty when neither alternative matches. -/
def extMatch : List Char → List Char
  | c :: 'j' :: 's' :: 'x' :: _ => [c, 'j', 's', 'x']
  | c :: 'j' :: 's' :: _ => [c, 'j', 's']
  | c :: 't' :: 's' :: 'x' :: _ => [c, 't', 's', 'x']
  | c :: 't' :: 's' :: _ => [c, 't', 's']
  | _ => []

/-- Tail of the handler regex after the folder group: `[^.]+(.jsx?|.tsx?)?`
with both pieces greedy; fails when no non-dot character is available. -/
def matchTail (s : List Char) : Option (List Char) :=
  let run := s.takeWhile (fun c => c ≠ '.')
  if run = [] then none
  else some (run ++ extMatch (s.dropWhile (fun c => c ≠ '.')))

/-- Backtracking over the greedy folder group: try the folder made of all
chunks first, then repeatedly give back the last chunk (the head of the
reversed chunk list) until the regex tail matches, down to the empty
folder. -/
def matchRev : List (List Char) → List Char → Option (List Char × List Char)
  | [], s =>
    match matchTail s with
    | some tail => some (tail, [])
    | none => none
  | c :: csRev2, s =>
    match matchTail (s.drop ((c :: csRev2).reverse.flatten.length)) with
    | some tail =>
      some ((c :: csRev2).reverse.flatten ++ tail, (c :: csRev2).reverse.flatten)
    | none => matchRev csRev2 s

/-- Embedding of `handler.match(/^(((?:[^\/\n]+\/)+)?[^.]+(.jsx?|.tsx?)?)/)`
(src/utils.ts lines 83-85) on character lists, returning
`(handlerName, folderName)`: the full match (which equals capture group 1,
destructured as `handlerName`) and the folder group (capture group 2,
destructured as `folderName`, defaulting to the empty string when the
group did not participate).  `none` models a null match result. -/
def handlerMatchL (s : List Char) : Option (List Char × List Char) :=
  matchRev (chunksOf s).reverse s

/-- String-level wrapper of `handlerMatchL`. -/
def handlerMatch (handler : String) : Option (String × String) :=
  match handlerMatchL handler.data with
  | none => none
  | some (hn, fol) => some (String.mk hn, String.mk fol)

example : handlerMatch "src/hello.handler" = some ("src/hello", "src/") := by decide
example : handlerMatch ".bad" = none := by decide
example : handlerMatch "a/b/" = some ("a/b/", "a/") := by decide
example : handlerMatch "hello.js" = some ("hello.js", "") := by decide
example : jsRewriteExt "examples/svc/hello.default".data
    = "examples/svc/hello.@(ts|js)?(x)".data := by decide
example : jsRewriteExt "hello.tsx".data = "hello.tsx".data := by decide
example : String.mk (jsBasePath "examples/svc/hello.default".data) = "examples/svc" := by decide

/-- A declared serverless function, as consumed by `resolvedEntries`:
either an image-based definition (no `handler` property, rejected by the
`isFunctionDefinition` typeguard) or a handler-style definition.  `layers`
models the list of `{ Ref: ... }` values and `shouldLayer` the optional
flag; the destructuring defaults (`layers = []`, `shouldLayer = true`) are
applied when the declaration omits them. -/
inductive SlsFunction where
  | image
  | handlerFn (handler : String) (layers : List String) (shouldLayer : Bool)

/-- The slice of the serverless service model read by the embedded code:
`Object.values(sls.service.functions)` in declaration order,
`sls.service.custom?.['esbuild-layers']?.backupFileType`, and
`sls.service.custom?.esbuild?.plugins`. -/
structure Sls where
  functions : List SlsFunction
  backupFileType : Option String
  esbuildPlugins : Option String

/-- Body of the `resolvedEntries` loop (src/utils.ts lines 78-95) for one
function that passed the skip guards, threading the insertion-ordered
entry set `acc`: pattern matches are added resolved; when the pattern
yields nothing the fallback parses the handler (an unparsable handler
falls through silently), lists the folder (a rejected `readdir` rejects
the whole call) and filters its entries by the file-name prefix: more than
one match appends `.<backupFileType>`, exactly one match is used as-is,
and zero matches make `fileName` the JavaScript `undefined`, so the
subsequent `path.join` throws a `TypeError` that rejects the whole call.
`Except.ok` carries the updated entry set to the rest of the loop. -/
def resolveHandlerStep (fs : FileSys) (backupFileType : String) (handler : String)
    (acc : List String) : Except String (List String) :=
  let matched := findEntriesSpecified fs (EntrySpec.list [handler])
  let acc1 := matched.foldl (fun a entry => setAdd a (path_resolve entry)) acc
  if matched.length = 0 then
    match handlerMatch handler with
    | none => Except.ok acc1
    | some (handlerName, folderName) =>
      match fs.readdir (path_resolve (stripTrailingSlash folderName)) with
      | none => Except.error "readdir rejected: directory cannot be listed"
      | some files =>
        let fileName := String.mk (removeFirstOcc handlerName.data folderName.data)
        let filteredFiles := files.filter (fun file => strStartsWith file fileName)
        if filteredFiles.length > 1 then
          Except.ok (setAdd acc1 (path_resolve (path_join folderName
            (fileName ++ "." ++ backupFileType))))
        else
          match filteredFiles with
          | [] => Except.error "TypeError: path.join received undefined"
          | f0 :: _ => Except.ok (setAdd acc1 (path_resolve (path_join folderName f0)))
  else Except.ok acc1

/-- Loop of `resolvedEntries` (src/utils.ts lines 70-96) over the declared
functions: image functions are skipped (with a diagnostic), as are
functions with `shouldLayer: false` and functions none of whose layer
`Ref`s equals `layerRefName` by exact string equality; the remaining
functions run `resolveHandlerStep`, whose rejection rejects the whole
loop. -/
def resolvedEntriesLoop (fs : FileSys) (backupFileType : String) (layerRefName : String) :
    List SlsFunction → List String → Except String (List String)
  | [], acc => Except.ok acc
  | SlsFunction.image :: rest, acc =>
    resolvedEntriesLoop fs backupFileType layerRefName rest acc
  | SlsFunction.handlerFn handler layers shouldLayer :: rest, acc =>
    if !shouldLayer then resolvedEntriesLoop fs backupFileType layerRefName rest acc
    else if !(layers.any (fun layer => layer == layerRefName)) then
      resolvedEntriesLoop fs backupFileType layerRefName rest acc
    else
      match resolveHandlerStep fs backupFileType handler acc with
      | Except.error e => Except.error e
      | Except.ok acc1 => resolvedEntriesLoop fs backupFileType layerRefName rest acc1

/-- Embedding of `resolvedEntries` (src/utils.ts lines 67-99): run the
loop over the declared functions with an empty entry set and the
configured backup file type (default `"default"`), returning
`Array.from` of the set. -/
def resolvedEntries (fs : FileSys) (sls : Sls) (layerRefName : String) :
    Except String (List String) :=
  resolvedEntriesLoop fs (sls.backupFileType.getD "default") layerRefName sls.functions []

/-- A function whose declaration can contribute entries when resolving
`layerRefName`: a handler-style definition that does not opt out of
layering and references the layer by exact string equality. -/
def layerCandidate (layerRefName : String) : SlsFunction → Bool
  | SlsFunction.image => false
  | SlsFunction.handlerFn _ layers shouldLayer =>
    shouldLayer && layers.any (fun layer => layer == layerRefName)

/-- An esbuild plugin override; the embedded code inspects only its
`name`. -/
structure Plugin where
  name : String

/-- The externals-detection plugin the core always injects
(`nodeExternalsPlugin()` from `esbuild-node-externals`). -/
def nodeExternalsPlugin : Plugin :=
  { name := "node-externals" }

/-- An import edge of the esbuild metafile: the resolved `path` and the
`original` specifier string, which esbuild may omit. -/
structure ImportRef where
  path : String
  original : Option String

/-- One metafile record (an output artifact or an input file): its list
of import edges. -/
structure MetaEntry where
  imports : List ImportRef

/-- The esbuild metafile graph: `Object.values(metafile.outputs)` and
`Object.entries(metafile.inputs)`, both in insertion order. -/
structure Metafile where
  outputs : List MetaEntry
  inputs : List (String × MetaEntry)

/-- Plugin-override loading of `getExternalModules` (src/utils.ts lines
134-146): when a plugin file is configured, dynamically import it; on
success drop any override named `node-externals`; on failure log the error
and keep the initial empty module list.  The dynamic import is the
`pluginLoader` collaborator. -/
def loadPluginModules (pluginLoader : String → Except String (List Plugin)) :
    Option String → List Plugin
  | none => []
  | some pluginFile =>
    match pluginLoader pluginFile with
    | Except.ok mods => mods.filter (fun m => m.name ≠ "node-externals")
    | Except.error _ => []

/-- Raw-specifier extraction from the metafile (src/utils.ts lines
158-166 and the flattening on lines 168-170): per output, the `path` of
every import; per input not under `node_modules`, the `original` specifier
of every import whose `path` is under `node_modules`, with absent
originals dropped (`filter(notEmpty)`); both collections flattened in
order. -/
def extractRawSpecifiers (m : Metafile) : List String :=
  let importedModules := m.outputs.map (fun o => o.imports.map (fun i => i.path))
  let requiredModules :=
    (m.inputs.filter (fun kv => !strStartsWith kv.1 "node_modules")).map
      (fun kv =>
        ((kv.2.imports.filter (fun i => strStartsWith i.path "node_modules")).map
          (fun i => i.original)).filterMap id)
  (importedModules ++ requiredModules).foldl (fun list listsOfMods => list ++ listsOfMods) []

/-- Embedding of `getExternalModules` (src/utils.ts lines 127-177).  The
bundler (`esbuild.build` returning `result.metafile`, invoked with the
entries and with `nodeExternalsPlugin()` prepended to the surviving
overrides), the plugin loader, the `is-builtin-module` predicate and the
`DEFAULT_AWS_MODULES` list are collaborators passed as parameters.  A
rejected `resolvedEntries` or bundler invocation rejects the whole call;
an empty entry set returns `[]` before the plugin loader or the bundler
run. -/
def getExternalModules (fs : FileSys)
    (bundler : List String → List Plugin → Except String Metafile)
    (pluginLoader : String → Except String (List Plugin))
    (isBuiltin : String → Bool) (defaultAwsModules : List String)
    (sls : Sls) (config : Config) (layerRefName : String) :
    Except String (List String) := do
  let entries ← resolvedEntries fs sls layerRefName
  if entries.length = 0 then return []
  let modules := loadPluginModules pluginLoader sls.esbuildPlugins
  let result ← bundler entries (nodeExternalsPlugin :: modules)
  return filterStage isBuiltin defaultAwsModules config (extractRawSpecifiers result)

/-- Filesystem state for the existence counterexample: `src` contains
`hello.json` and `hello.txt`, no source file matches the glob, and nothing
else exists. -/
def cex5FS : FileSys where
  glob := fun _ => []
  readdir := fun d => if d = "/cwd/src" then some ["hello.json", "hello.txt"] else none
  existsFile := fun p => p == "/cwd/src/hello.json" || p == "/cwd/src/hello.txt"

/-- Service declaration for the existence counterexample: one function on
layer `L` whose handler is `src/hello.handler`. -/
def cex5Sls : Sls where
  functions := [SlsFunction.handlerFn "src/hello.handler" ["L"] true]
  backupFileType := none
  esbuildPlugins := none

example : resolvedEntries cex5FS cex5Sls "L" = Except.ok ["/cwd/src/hello.default"] := by rfl
example : cex5FS.existsFile "/cwd/src/hello.default" = false := by decide

/-- Filesystem state for the silent-skip counterexample: `src` contains
only `other.js`, which does not start with the computed prefix `hello`. -/
def cex6FS : FileSys where
  glob := fun _ => []
  readdir := fun d => if d = "/cwd/src" then some ["other.js"] else none
  existsFile := fun p => p == "/cwd/src/other.js"

example : resolvedEntries cex6FS cex5Sls "L"
    = Except.error "TypeError: path.join received undefined" := by rfl

/-- Well-formedness of a chunk produced by `splitSeg`: a nonempty
slash-free segment followed by a single `/`. -/
def ChunkWF (c : List Char) : Prop :=
  ∃ seg, seg ≠ [] ∧ (∀ x ∈ seg, x ≠ '/') ∧ c = seg ++ ['/']

/-- Coherence of a `FileSys` value with a real filesystem: glob results
resolve to existing paths, directory listings join to existing paths, and
directory entry names are nonempty and do not begin with a slash. -/
structure FSCoherent (fs : FileSys) : Prop where
  glob_exists : ∀ pat e, e ∈ globPromise fs pat → fs.existsFile (path_resolve e) = true
  readdir_exists : ∀ d files f, fs.readdir d = some files → f ∈ files →
    fs.existsFile (path_join d f) = true
  readdir_names : ∀ d files f, fs.readdir d = some files → f ∈ files →
    f ≠ "" ∧ f.data.head? ≠ some '/'

/-- True when resolving `handler` against `fs` reaches the ambiguous
fallback branch of `resolvedEntries`: the pattern stage yields nothing,
the handler parses, the folder lists, and more than one directory entry
starts with the computed file-name prefix (the branch that appends
`.<backupFileType>`). -/
def fallbackAmbiguous (fs : FileSys) (handler : String) : Bool :=
  decide ((findEntriesSpecified fs (EntrySpec.list [handler])).length = 0) &&
  (match handlerMatch handler with
   | none => false
   | some (handlerName, folderName) =>
     match fs.readdir (path_resolve (stripTrailingSlash folderName)) with
     | none => false
     | some files =>
       decide ((files.filter (fun file => strStartsWith file
         (String.mk (removeFirstOcc handlerName.data folderName.data)))).length > 1))

/-- Featureless filesystem used by witnesses: no glob matches, no
listable directories, no existing files. -/
def fsEmpty : FileSys where
  glob := fun _ => []
  readdir := fun _ => none
  existsFile := fun _ => false

/-- Service declaration with no functions, used by witnesses. -/
def slsEmpty : Sls where
  functions := []
  backupFileType := none
  esbuildPlugins := none

/-- Configuration whose force lists both name `lodash`, used by a witness. -/
def cfgBoth : Config where
  forceInclude := ["lodash"]
  forceExclude := ["lodash"]

/-- Filesystem whose glob always finds `hello.js`, used by a witness. -/
def fsGlob : FileSys where
  glob := fun _ => ["hello.js"]
  readdir := fun _ => none
  existsFile := fun _ => true

/-- Plugin loader that always fails, used by a witness. -/
def loaderFail : String → Except String (List Plugin) :=
  fun _ => Except.error "import failed"

/-- Bundler returning an empty metafile, used by a witness. -/
def bundlerEmpty : List String → List Plugin → Except String Metafile :=
  fun _ _ => Except.ok ⟨[], []⟩

/-- Single-function service declaring a plugin-override file, used by a
witness. -/
def slsPlugin : Sls where
  functions := [SlsFunction.handlerFn "src/hello.handler" ["L"] true]
  backupFileType := none
  esbuildPlugins := some "plugins.js"

example : fixModuleName "uuid/v4" = "uuid" := by decide
example : fixModuleName "@beforeyoubid/ui-lib/something" = "@beforeyoubid/ui-lib" := by decide
example : fixModuleName "@scope" = "@scope/undefined" := by decide
example :
    filterStage (fun _ => false) [] ⟨[], []⟩ ["uuid/v4", "@scope/pkg/deep", "uuid/v4"]
      = ["uuid", "@scope/pkg"] := by decide

/-! Helper lemmas about the embedded JavaScript containers. -/

theorem mem_setAdd {l : List String} {x p : String} :
    p ∈ setAdd l x ↔ p ∈ l ∨ p = x := by
  unfold setAdd
  split
  · constructor
    · exact Or.inl
    · rintro (hp | rfl) <;> [exact hp; assumption]
  · simp

theorem setAdd_nodup {l : List String} {x : String} (h : l.Nodup) :
    (setAdd l x).Nodup := by
  unfold setAdd
  split
  · exact h
  · refine h.append (List.nodup_singleton x) ?_
    intro a ha hax
    simp only [List.mem_singleton] at hax
    subst hax
    exact absurd ha (by assumption)

theorem foldl_setAdd_nodup :
    ∀ (l acc : List String), acc.Nodup → (l.foldl setAdd acc).Nodup
  | [], _, h => h
  | _ :: rest, acc, h => foldl_setAdd_nodup rest _ (setAdd_nodup h)

theorem jsSetFrom_nodup (l : List String) : (jsSetFrom l).Nodup :=
  foldl_setAdd_nodup l [] List.nodup_nil

theorem mem_foldl_setAdd (g : String → String) :
    ∀ (l acc : List String) (p : String),
      p ∈ l.foldl (fun a e => setAdd a (g e)) acc → p ∈ acc ∨ ∃ e, e ∈ l ∧ p = g e := by
  intro l
  induction l with
  | nil => intro acc p hp; exact Or.inl hp
  | cons e rest ih =>
    intro acc p hp
    rcases ih _ p hp with hacc | ⟨e', he', rfl⟩
    · rcases mem_setAdd.mp hacc with h | rfl
      · exact Or.inl h
      · exact Or.inr ⟨e, List.mem_cons_self .., rfl⟩
    · exact Or.inr ⟨e', List.mem_cons_of_mem _ he', rfl⟩

theorem jsSplitCh_ne_nil (sep : Char) (l : List Char) : jsSplitCh sep l ≠ [] := by
  cases l with
  | nil => simp [jsSplitCh]
  | cons c rest =>
    unfold jsSplitCh
    split
    · simp
    · split <;> simp

theorem jsSplitCh_length_ge_two {l : List Char} (h : '/' ∈ l) :
    2 ≤ (jsSplitCh '/' l).length := by
  induction l with
  | nil => cases h
  | cons c rest ih =>
    unfold jsSplitCh
    by_cases hc : c = '/'
    · subst hc
      rw [if_pos rfl]
      have h1 : 1 ≤ (jsSplitCh '/' rest).length :=
        List.length_pos.mpr (jsSplitCh_ne_nil '/' rest)
      simp only [List.length_cons]
      omega
    · have hmem : '/' ∈ rest := by
        rcases List.mem_cons.mp h with rfl | hr
        · exact absurd rfl hc
        · exact hr
      have h2 := ih hmem
      simp only [if_neg hc]
      rcases hsplit : jsSplitCh '/' rest with _ | ⟨p, ps⟩
      · exact absurd hsplit (jsSplitCh_ne_nil '/' rest)
      · rw [hsplit] at h2
        simpa using h2

theorem findEntriesSpecified_single (fs : FileSys) (h : String) :
    findEntriesSpecified fs (EntrySpec.list [h]) = globPromise fs h := by
  simp [findEntriesSpecified, findEntriesList]

/-! Claims about the dependency filter stage, the path pattern resolver
and the module name normalizer. -/

/-- C7: `findEntriesSpecified` returns the empty sequence, without error
and without touching the filesystem (the result is independent of `fs`,
which is universally quantified), both for an input that is neither a
string nor an array (such as the number `123`, modelled by
`EntrySpec.other`) and for the empty array input. -/
theorem findEntriesSpecified_defensive (fs : FileSys) :
    findEntriesSpecified fs EntrySpec.other = [] ∧
      findEntriesSpecified fs (EntrySpec.list []) = [] :=
  ⟨rfl, rfl⟩

/-- C8 counterexample: for the scoped specifier `"@scope"` with no `/`,
`fixModuleName` returns `"@scope/undefined"` (the second destructured
segment is JavaScript `undefined` and the template literal renders it),
which differs from the first-two-segments-joined reading of the spec
(`normalize_spec`, which yields `"@scope"`): the claim's universal scoped
case fails on specifiers without a slash. -/
theorem fixModuleName_scoped_counterexample :
    fixModuleName "@scope" = "@scope/undefined" ∧
      normalize_spec "@scope" = "@scope" ∧
      fixModuleName "@scope" ≠ normalize_spec "@scope" :=
  ⟨by decide, by decide, by decide⟩

/-- C8 amended: `fixModuleName` agrees with the spec's normalizer
(`normalize_spec`: first two `/`-delimited segments joined by `/` for
scoped names, first segment otherwise) for every specifier that is
unscoped or contains at least one `/`; a scoped specifier with no `/`
instead yields `<name>/undefined`.  The function is total, deterministic
and side-effect free (it is a pure Lean function). -/
theorem fixModuleName_eq_normalize_spec (mod : String)
    (h : strStartsWith mod "@" = false ∨ '/' ∈ mod.data) :
    fixModuleName mod = normalize_spec mod := by
  unfold fixModuleName normalize_spec
  by_cases hs : strStartsWith mod "@"
  · have hmem : '/' ∈ mod.data := by
      rcases h with h | h
      · rw [hs] at h; cases h
      · exact h
    have hlen := jsSplitCh_length_ge_two hmem
    rcases hsplit : jsSplitCh '/' mod.data with _ | ⟨g, _ | ⟨p, rest⟩⟩ <;>
      rw [hsplit] at hlen <;> simp only [List.length_cons, List.length_nil] at hlen
    · omega
    · omega
    · simp [hs, hsplit, joinSlash]
  · rcases hsplit : jsSplitCh '/' mod.data with _ | ⟨p, rest⟩
    · exact absurd hsplit (jsSplitCh_ne_nil '/' mod.data)
    · simp [hs, hsplit, joinSlash]

/-- C8 witness: the amended theorem applied to `"@scope/pkg/deep"`. -/
theorem fixModuleName_eq_normalize_spec_witness :
    ('/' ∈ "@scope/pkg/deep".data) ∧
      fixModuleName "@scope/pkg/deep" = normalize_spec "@scope/pkg/deep" :=
  ⟨by decide, fixModuleName_eq_normalize_spec "@scope/pkg/deep" (Or.inr (by decide))⟩

/-- C1: in the dependency filter stage of `getExternalModules`, the
returned sequence is some kept prefix followed by `config.forceInclude`
verbatim (so the force-included names sit at the end in declared order),
and any name listed in both `forceInclude` and `forceExclude` is a member
of the final output: inclusion always wins. -/
theorem filterStage_forceInclude_wins (isBuiltin : String → Bool)
    (defaultAwsModules : List String) (config : Config) (raw : List String)
    (p : String) (hinc : p ∈ config.forceInclude) (hexc : p ∈ config.forceExclude) :
    (∃ kept, filterStage isBuiltin defaultAwsModules config raw
        = kept ++ config.forceInclude) ∧
      p ∈ filterStage isBuiltin defaultAwsModules config raw := by
  unfold filterStage
  exact ⟨⟨_, rfl⟩, List.mem_append_right _ hinc⟩

/-- C1 witness: the theorem applied to a configuration whose force lists
both contain `"lodash"` and to an empty raw-specifier list. -/
theorem filterStage_forceInclude_wins_witness :
    "lodash" ∈ cfgBoth.forceInclude ∧ "lodash" ∈ cfgBoth.forceExclude ∧
      "lodash" ∈ filterStage (fun _ => false) [] cfgBoth [] :=
  ⟨by decide, by decide,
    (filterStage_forceInclude_wins (fun _ => false) [] cfgBoth [] "lodash"
      (by decide) (by decide)).2⟩

/-- C2: on raw specifiers `["uuid/v4", "@scope/pkg/deep", "uuid/v4"]`,
when none of them is a runtime built-in, neither resulting package name is
in the default AWS module list, and both force lists are empty, the filter
stage returns exactly `["uuid", "@scope/pkg"]`: built-in removal keeps all
three, normalization maps them to `["uuid", "@scope/pkg", "uuid"]`, and
the insertion-ordered set deduplicates to first occurrences.  The output
is a pure function of the input list, hence identical across repeated
runs on the same input order. -/
theorem filterStage_scenario_uuid_scope (isBuiltin : String → Bool)
    (defaultAwsModules : List String) (config : Config)
    (hinc : config.forceInclude = []) (hexc : config.forceExclude = [])
    (hb1 : isBuiltin "uuid/v4" = false) (hb2 : isBuiltin "@scope/pkg/deep" = false)
    (ha1 : "uuid" ∉ defaultAwsModules) (ha2 : "@scope/pkg" ∉ defaultAwsModules) :
    filterStage isBuiltin defaultAwsModules config ["uuid/v4", "@scope/pkg/deep", "uuid/v4"]
      = ["uuid", "@scope/pkg"] := by
  have hfil : (["uuid/v4", "@scope/pkg/deep", "uuid/v4"].filter (fun m => !isBuiltin m))
      = ["uuid/v4", "@scope/pkg/deep", "uuid/v4"] := by
    simp [List.filter_cons, hb1, hb2]
  have hmap : (["uuid/v4", "@scope/pkg/deep", "uuid/v4"].map fixModuleName)
      = ["uuid", "@scope/pkg", "uuid"] := by decide
  have hset : jsSetFrom ["uuid", "@scope/pkg", "uuid"] = ["uuid", "@scope/pkg"] := by decide
  unfold filterStage
  rw [hfil, hmap, hset, hinc, hexc]
  simp [List.filter_cons, ha1, ha2]

/-- C2 witness: the theorem applied with no built-ins, an AWS module list
`["aws-sdk"]` and empty force lists. -/
theorem filterStage_scenario_uuid_scope_witness :
    ("uuid" ∉ ["aws-sdk"]) ∧
      filterStage (fun _ => false) ["aws-sdk"] ⟨[], []⟩
        ["uuid/v4", "@scope/pkg/deep", "uuid/v4"] = ["uuid", "@scope/pkg"] :=
  ⟨by decide,
    filterStage_scenario_uuid_scope (fun _ => false) ["aws-sdk"] ⟨[], []⟩ rfl rfl rfl rfl
      (by decide) (by decide)⟩

theorem count_le_one_of_nodup {l : List String} (h : l.Nodup) (p : String) :
    l.count p ≤ 1 := by
  induction l with
  | nil => simp
  | cons a rest ih =>
    rw [List.count_cons]
    rcases List.nodup_cons.mp h with ⟨ha, hrest⟩
    by_cases hp : a = p
    · subst hp
      have h0 : rest.count a = 0 := by
        simp [List.count_eq_zero, ha]
      simp [h0]
    · simpa [hp, Ne.symm hp] using ih hrest

/-- C10: every package name that is not an entry of `config.forceInclude`
appears at most once in the filter stage output: the deduplicating set is
built from the normalized names (after built-in removal and
`fixModuleName`), so distinct raw specifiers with the same normalized name
collapse to one occurrence, and the subsequent removals cannot duplicate.
-/
theorem filterStage_count_le_one (isBuiltin : String → Bool)
    (defaultAwsModules : List String) (config : Config) (raw : List String)
    (p : String) (hp : p ∉ config.forceInclude) :
    (filterStage isBuiltin defaultAwsModules config raw).count p ≤ 1 := by
  unfold filterStage
  rw [List.count_append]
  have h1 : (jsSetFrom ((raw.filter (fun m => !isBuiltin m)).map fixModuleName)).Nodup :=
    jsSetFrom_nodup _
  have h2 := h1.filter
    (fun dep => !defaultAwsModules.contains dep && !config.forceExclude.contains dep)
  have h3 : config.forceInclude.count p = 0 := by
    simp [List.count_eq_zero, hp]
  have h4 := count_le_one_of_nodup h2 p
  omega

/-- C10 witness: the theorem applied to raw specifiers `["uuid/v4",
"uuid/v5"]`, which both normalize to `"uuid"`; the output counts `"uuid"`
once. -/
theorem filterStage_count_le_one_witness :
    ("uuid" ∉ (⟨[], []⟩ : Config).forceInclude) ∧
      (filterStage (fun _ => false) [] ⟨[], []⟩ ["uuid/v4", "uuid/v5"]).count "uuid" ≤ 1 :=
  ⟨by decide,
    filterStage_count_le_one (fun _ => false) [] ⟨[], []⟩ ["uuid/v4", "uuid/v5"] "uuid"
      (by decide)⟩

/-- C4: whenever entry resolution for the layer yields the empty set,
`getExternalModules` returns the empty sequence; the bundler and the
plugin loader are universally quantified and unused (the result is
`Except.ok []` even for a bundler that always fails), so the bundler is
never invoked. -/
theorem getExternalModules_empty_entries (fs : FileSys)
    (bundler : List String → List Plugin → Except String Metafile)
    (pluginLoader : String → Except String (List Plugin))
    (isBuiltin : String → Bool) (defaultAwsModules : List String)
    (sls : Sls) (config : Config) (layerRefName : String)
    (h : resolvedEntries fs sls layerRefName = Except.ok []) :
    getExternalModules fs bundler pluginLoader isBuiltin defaultAwsModules
      sls config layerRefName = Except.ok [] := by
  unfold getExternalModules
  rw [h]
  rfl

/-- C4 witness: a service with no declared functions resolves no entries,
and `getExternalModules` returns `Except.ok []` even though the supplied
bundler and plugin loader always fail. -/
theorem getExternalModules_empty_entries_witness :
    resolvedEntries fsEmpty slsEmpty "LayerA" = Except.ok [] ∧
      getExternalModules fsEmpty (fun _ _ => Except.error "bundler invoked")
        (fun _ => Except.error "loader invoked") (fun _ => false) [] slsEmpty ⟨[], []⟩ "LayerA"
        = Except.ok [] :=
  ⟨rfl,
    getExternalModules_empty_entries fsEmpty (fun _ _ => Except.error "bundler invoked")
      (fun _ => Except.error "loader invoked") (fun _ => false) [] slsEmpty ⟨[], []⟩ "LayerA" rfl⟩

theorem resolvedEntriesLoop_filter_candidates (fs : FileSys) (bft L : String) :
    ∀ (funcs : List SlsFunction) (acc : List String),
      resolvedEntriesLoop fs bft L funcs acc =
        resolvedEntriesLoop fs bft L (funcs.filter (layerCandidate L)) acc := by
  intro funcs
  induction funcs with
  | nil => intro acc; rfl
  | cons f rest ih =>
    intro acc
    cases f with
    | image =>
      rw [List.filter_cons]
      simp only [layerCandidate, Bool.false_eq_true, if_false]
      simp only [resolvedEntriesLoop]
      exact ih acc
    | handlerFn handler layers sl =>
      rw [List.filter_cons]
      cases sl with
      | false =>
        simp only [layerCandidate, Bool.false_and, Bool.false_eq_true, if_false]
        simp only [resolvedEntriesLoop, Bool.not_false, if_true]
        exact ih acc
      | true =>
        cases hany : layers.any (fun layer => layer == L) with
        | false =>
          simp only [layerCandidate, hany, Bool.true_and, Bool.false_eq_true, if_false]
          simp only [resolvedEntriesLoop, hany, Bool.not_true, Bool.not_false,
            Bool.false_eq_true, if_false, if_true]
          exact ih acc
        | true =>
          simp only [layerCandidate, hany, Bool.true_and, if_true]
          simp only [resolvedEntriesLoop, hany, Bool.not_true, Bool.false_eq_true, if_false]
          cases resolveHandlerStep fs bft handler acc with
          | error e => rfl
          | ok acc1 => exact ih acc1

/-- C3: a declared function contributes to `resolvedEntries` only when it
is a handler-style definition whose `shouldLayer` flag is not `false` and
whose layer references contain the resolved layer id by exact string
equality: dropping every non-candidate function leaves the result
unchanged; in particular a `shouldLayer: false` function at the front of
the declaration list never changes any layer's resolution, and a function
referencing only layer `"A"` changes nothing when resolving layer `"B"`.
-/
theorem resolvedEntries_only_candidates (fs : FileSys) (sls : Sls) (L : String) :
    (resolvedEntries fs sls L =
      resolvedEntries fs ⟨sls.functions.filter (layerCandidate L), sls.backupFileType,
        sls.esbuildPlugins⟩ L) ∧
    (∀ handler layers funcs bftO pf,
      resolvedEntries fs ⟨SlsFunction.handlerFn handler layers false :: funcs, bftO, pf⟩ L =
        resolvedEntries fs ⟨funcs, bftO, pf⟩ L) ∧
    (∀ handler funcs bftO pf,
      resolvedEntries fs ⟨SlsFunction.handlerFn handler ["A"] true :: funcs, bftO, pf⟩ "B" =
        resolvedEntries fs ⟨funcs, bftO, pf⟩ "B") := by
  refine ⟨?_, ?_, ?_⟩
  · exact resolvedEntriesLoop_filter_candidates fs _ L sls.functions []
  · intro handler layers funcs bftO pf
    unfold resolvedEntries
    simp only [resolvedEntriesLoop, Bool.not_false, if_true]
  · intro handler funcs bftO pf
    unfold resolvedEntries
    have hany : (["A"].any (fun layer => layer == "B")) = false := by decide
    simp only [resolvedEntriesLoop, hany, Bool.not_true, Bool.not_false, if_true,
      Bool.false_eq_true, if_false]

theorem resolveHandlerStep_unmatched (fs : FileSys) (bft handler : String)
    (acc : List String)
    (hglob : findEntriesSpecified fs (EntrySpec.list [handler]) = [])
    (hmatch : handlerMatch handler = none) :
    resolveHandlerStep fs bft handler acc = Except.ok acc := by
  unfold resolveHandlerStep
  rw [hglob, hmatch]
  rfl

/-- C6 amended: a function whose pattern resolution yields zero matches
and whose handler does not match the fallback parse pattern is skipped
silently (the result is as if the function were absent); but when the
fallback pattern matches and the listed directory contains no file
starting with the computed prefix, `resolvedEntries` rejects with a
`TypeError` from `path.join` instead of skipping (see the
counterexample). -/
theorem resolvedEntries_skip_unparsable (fs : FileSys) (bftO pf : Option String)
    (L handler : String) (layers : List String) (funcs : List SlsFunction)
    (hglob : findEntriesSpecified fs (EntrySpec.list [handler]) = [])
    (hmatch : handlerMatch handler = none) :
    resolvedEntries fs ⟨SlsFunction.handlerFn handler layers true :: funcs, bftO, pf⟩ L =
      resolvedEntries fs ⟨funcs, bftO, pf⟩ L := by
  unfold resolvedEntries
  cases hany : layers.any (fun layer => layer == L) with
  | false =>
    simp only [resolvedEntriesLoop, hany, Bool.not_true, Bool.not_false, if_true,
      Bool.false_eq_true, if_false]
  | true =>
    simp only [resolvedEntriesLoop, hany, Bool.not_true, Bool.false_eq_true, if_false]
    rw [resolveHandlerStep_unmatched fs _ handler [] hglob hmatch]

/-- C6 witness: the amended theorem applied to the handler `".bad"`
(which starts with a dot, so the fallback pattern cannot match) on the
featureless filesystem. -/
theorem resolvedEntries_skip_unparsable_witness :
    findEntriesSpecified fsEmpty (EntrySpec.list [".bad"]) = [] ∧
      handlerMatch ".bad" = none ∧
      resolvedEntries fsEmpty ⟨[SlsFunction.handlerFn ".bad" ["L"] true], none, none⟩ "L" =
        resolvedEntries fsEmpty ⟨[], none, none⟩ "L" :=
  ⟨rfl, by decide,
    resolvedEntries_skip_unparsable fsEmpty none none "L" ".bad" ["L"] [] rfl (by decide)⟩

theorem cex6FS_coherent : FSCoherent cex6FS := by
  refine ⟨?_, ?_, ?_⟩
  · intro pat e he
    simp [globPromise, cex6FS] at he
  · intro d files f hd hf
    revert hd
    show (if d = "/cwd/src" then some ["other.js"] else none) = some files → _
    split
    · intro h
      injection h with h
      subst h
      rcases List.mem_singleton.mp hf with rfl
      subst d
      decide
    · intro h; cases h
  · intro d files f hd hf
    revert hd
    show (if d = "/cwd/src" then some ["other.js"] else none) = some files → _
    split
    · intro h
      injection h with h
      subst h
      rcases List.mem_singleton.mp hf with rfl
      decide
    · intro h; cases h

/-- C6 counterexample: with the coherent filesystem `cex6FS` (directory
`src` holds only `other.js`) and the handler `src/hello.handler`, pattern
resolution yields zero matches, the fallback pattern matches, no directory
entry starts with the prefix `hello`, and `resolvedEntries` rejects with
the `path.join` `TypeError` instead of skipping the function silently —
refuting the claim that such a function is always skipped without error. -/
theorem resolvedEntries_zero_prefix_match_error :
    resolvedEntries cex6FS cex5Sls "L"
      = Except.error "TypeError: path.join received undefined" ∧
      FSCoherent cex6FS :=
  ⟨by rfl, cex6FS_coherent⟩

/-- C9: when a plugin-override file is configured but its dynamic import
fails, `getExternalModules` proceeds with the empty override set: the
result equals the run with no plugin file configured at all (for any
loader), so the failure never rejects the extraction. -/
theorem getExternalModules_plugin_failure (fs : FileSys)
    (bundler : List String → List Plugin → Except String Metafile)
    (pluginLoader pluginLoader2 : String → Except String (List Plugin))
    (isBuiltin : String → Bool) (defaultAwsModules : List String)
    (functions : List SlsFunction) (bftO : Option String)
    (pluginFile e : String) (config : Config) (L : String)
    (hfail : pluginLoader pluginFile = Except.error e) :
    getExternalModules fs bundler pluginLoader isBuiltin defaultAwsModules
      ⟨functions, bftO, some pluginFile⟩ config L =
      getExternalModules fs bundler pluginLoader2 isBuiltin defaultAwsModules
        ⟨functions, bftO, none⟩ config L := by
  have hload : loadPluginModules pluginLoader (some pluginFile) = [] := by
    have heq : loadPluginModules pluginLoader (some pluginFile)
        = match pluginLoader pluginFile with
          | Except.ok mods => mods.filter (fun m => m.name ≠ "node-externals")
          | Except.error _ => [] := rfl
    rw [heq, hfail]
  have hload2 : loadPluginModules pluginLoader2 none = [] := rfl
  unfold getExternalModules resolvedEntries
  dsimp only
  cases hres : resolvedEntriesLoop fs (bftO.getD "default") L functions [] with
  | error e2 => rfl
  | ok entries =>
    show Except.ok entries >>= _ = Except.ok entries >>= _
    by_cases hlen : entries.length = 0
    · simp [hlen, bind, Except.bind]
    · simp only [bind, Except.bind, hlen, if_false, hload, hload2]

/-- C9 witness: the theorem applied to a one-function service whose
configured plugin file fails to load; both runs return the same result. -/
theorem getExternalModules_plugin_failure_witness :
    loaderFail "plugins.js" = Except.error "import failed" ∧
      getExternalModules fsGlob bundlerEmpty loaderFail (fun _ => false) []
        ⟨[SlsFunction.handlerFn "src/hello.handler" ["L"] true], none, some "plugins.js"⟩
        ⟨[], []⟩ "L" =
      getExternalModules fsGlob bundlerEmpty loaderFail (fun _ => false) []
        ⟨[SlsFunction.handlerFn "src/hello.handler" ["L"] true], none, none⟩
        ⟨[], []⟩ "L" :=
  ⟨rfl,
    getExternalModules_plugin_failure fsGlob bundlerEmpty loaderFail loaderFail
      (fun _ => false) [] [SlsFunction.handlerFn "src/hello.handler" ["L"] true] none
      "plugins.js" "import failed" ⟨[], []⟩ "L" rfl⟩

theorem splitSeg_wf {s c r : List Char} (h : splitSeg s = some (c, r)) : ChunkWF c := by
  unfold splitSeg at h
  rcases hrest : s.dropWhile (fun c => c ≠ '/') with _ | ⟨hd, tl⟩ <;>
    rw [hrest] at h <;> dsimp only at h
  · exact absurd h (by simp)
  · split at h
    · rename_i hcond
      simp only [Option.some.injEq, Prod.mk.injEq] at h
      obtain ⟨hc, -⟩ := h
      refine ⟨s.takeWhile (fun c => c ≠ '/'), hcond.1, ?_, hc.symm⟩
      intro x hx
      simpa using List.mem_takeWhile_imp hx
    · exact absurd h (by simp)

theorem chunksOfFuel_wf :
    ∀ (fuel : Nat) (s : List Char), ∀ c ∈ chunksOfFuel fuel s, ChunkWF c := by
  intro fuel
  induction fuel with
  | zero => intro s c hc; cases hc
  | succ n ih =>
    intro s c hc
    unfold chunksOfFuel at hc
    rcases hsp : splitSeg s with _ | ⟨c0, r⟩ <;> rw [hsp] at hc
    · cases hc
    · rcases List.mem_cons.mp hc with rfl | hmem
      · exact splitSeg_wf hsp
      · exact ih r c hmem

theorem chunksOf_wf {s : List Char} : ∀ c ∈ chunksOf s, ChunkWF c :=
  fun c hc => chunksOfFuel_wf s.length s c hc

theorem head?_ne_slash_of_all {seg : List Char} (h : ∀ x ∈ seg, x ≠ '/') :
    seg.head? ≠ some '/' := by
  cases seg with
  | nil => simp
  | cons a l =>
    simp only [List.head?_cons, ne_eq, Option.some.injEq]
    exact h a (List.mem_cons_self ..)

theorem getLast?_ne_slash_of_all {seg : List Char} (h : ∀ x ∈ seg, x ≠ '/') :
    seg.getLast? ≠ some '/' := by
  intro hc
  exact h '/' (List.mem_of_getLast?_eq_some hc) rfl

theorem flatten_chunk_shape :
    ∀ (cs : List (List Char)), (∀ c ∈ cs, ChunkWF c) → cs ≠ [] →
      ∃ body, cs.flatten = body ++ ['/'] ∧ body ≠ [] ∧
        body.head? ≠ some '/' ∧ body.getLast? ≠ some '/' := by
  intro cs
  induction cs with
  | nil => intro _ h; exact absurd rfl h
  | cons c cs' ih =>
    intro hwf _
    obtain ⟨seg, hseg, hnoslash, rfl⟩ := hwf _ (List.mem_cons_self ..)
    by_cases hcs' : cs' = []
    · subst hcs'
      refine ⟨seg, by simp, hseg, head?_ne_slash_of_all hnoslash,
        getLast?_ne_slash_of_all hnoslash⟩
    · obtain ⟨body', hflat, hbody', hhead', hlast'⟩ :=
        ih (fun d hd => hwf d (List.mem_cons_of_mem _ hd)) hcs'
      refine ⟨seg ++ '/' :: body', ?_, by simp [hseg], ?_, ?_⟩
      · show (seg ++ ['/']) ++ cs'.flatten = (seg ++ '/' :: body') ++ ['/']
        rw [hflat]
        simp
      · rcases seg with _ | ⟨a, l⟩
        · exact absurd rfl hseg
        · simpa using hnoslash a (List.mem_cons_self ..)
      · rw [List.getLast?_append]
        have h1 : ('/' :: body').getLast? = body'.getLast? := by
          cases body' with
          | nil => exact absurd rfl hbody'
          | cons b bs => simp [List.getLast?_cons_cons]
        rw [h1]
        cases hb : body'.getLast? with
        | none =>
          exact absurd (List.getLast?_eq_none_iff.mp hb) hbody'
        | some x =>
          rw [hb] at hlast'
          simpa using fun hx => hlast' (by rw [hx])

theorem matchRev_folder :
    ∀ (csRev : List (List Char)) (s hn fol : List Char),
      matchRev csRev s = some (hn, fol) →
        ∃ csUsed, csUsed <:+ csRev ∧ fol = csUsed.reverse.flatten := by
  intro csRev
  induction csRev with
  | nil =>
    intro s hn fol h
    unfold matchRev at h
    rcases hmt : matchTail s with _ | t <;> rw [hmt] at h
    · exact absurd h (by simp)
    · simp only [Option.some.injEq, Prod.mk.injEq] at h
      exact ⟨[], List.nil_suffix, by rw [← h.2]; rfl⟩
  | cons c csRev2 ih =>
    intro s hn fol h
    unfold matchRev at h
    rcases hmt : matchTail (s.drop ((c :: csRev2) : List (List Char)).reverse.flatten.length)
        with _ | t <;> rw [hmt] at h
    · obtain ⟨csUsed, hsuf, hfol⟩ := ih s hn fol h
      exact ⟨csUsed, hsuf.trans (List.suffix_cons c csRev2), hfol⟩
    · simp only [Option.some.injEq, Prod.mk.injEq] at h
      exact ⟨c :: csRev2, List.suffix_refl _, h.2.symm⟩

theorem handlerMatch_folder_shape {handler hn fol : String}
    (h : handlerMatch handler = some (hn, fol)) :
    fol.data = [] ∨ ∃ body, fol.data = body ++ ['/'] ∧ body ≠ [] ∧
      body.head? ≠ some '/' ∧ body.getLast? ≠ some '/' := by
  unfold handlerMatch handlerMatchL at h
  rcases hm : matchRev (chunksOf handler.data).reverse handler.data with _ | ⟨hnL, folL⟩ <;>
    rw [hm] at h
  · exact absurd h (by simp)
  · simp only [Option.some.injEq, Prod.mk.injEq] at h
    obtain ⟨-, hfol⟩ := h
    obtain ⟨csUsed, hsuf, rfl⟩ := matchRev_folder _ _ _ _ hm
    subst hfol
    by_cases hcs : csUsed.reverse = []
    · left
      show csUsed.reverse.flatten = []
      rw [hcs]
      rfl
    · right
      apply flatten_chunk_shape csUsed.reverse _ hcs
      intro d hd
      have h1 : d ∈ csUsed := List.mem_reverse.mp hd
      have h2 : d ∈ (chunksOf handler.data).reverse := hsuf.subset h1
      exact chunksOf_wf d (List.mem_reverse.mp h2)

theorem str_eq_empty_iff {s : String} : s = "" ↔ s.data = [] := by
  constructor
  · intro h; rw [h]
  · intro h; apply String.ext; rw [h]

theorem resolve_join_eq (fol f : String)
    (hfol : fol.data = [] ∨ ∃ body, fol.data = body ++ ['/'] ∧ body ≠ [] ∧
      body.head? ≠ some '/' ∧ body.getLast? ≠ some '/')
    (hf1 : f ≠ "") (hf2 : f.data.head? ≠ some '/') :
    path_resolve (path_join fol f) = path_join (path_resolve (stripTrailingSlash fol)) f := by
  rcases hfol with hnil | ⟨body, hdat, hbody, hhead, hlast⟩
  · have hfol0 : fol = "" := str_eq_empty_iff.mpr hnil
    subst hfol0
    rw [show path_join "" f = f from by unfold path_join; rw [if_pos rfl]]
    rw [show stripTrailingSlash "" = "" from rfl]
    rw [show path_resolve "" = "/cwd" from rfl]
    rw [show path_resolve f = "/cwd/" ++ f from by
      unfold path_resolve; rw [if_neg hf1, if_neg hf2]]
    rw [show path_join "/cwd" f = "/cwd" ++ "/" ++ f from by
      unfold path_join
      rw [if_neg (by decide), if_neg (by decide)]]
    apply String.ext
    simp
  · have hfne : fol ≠ "" := by
      intro hc
      rw [str_eq_empty_iff] at hc
      rw [hc] at hdat
      exact absurd hdat.symm (by simp)
    have hlastSlash : fol.data.getLast? = some '/' := by
      rw [hdat, List.getLast?_concat]
    have hfolHead : fol.data.head? = body.head? := by
      rw [hdat, List.head?_append]
      cases hb : body.head? with
      | none => exact absurd (List.head?_eq_none_iff.mp hb) hbody
      | some x => rfl
    have hjoin : path_join fol f = fol ++ f := by
      unfold path_join
      rw [if_neg hfne, if_pos hlastSlash]
    have hstrip : stripTrailingSlash fol = String.mk body := by
      unfold stripTrailingSlash
      rw [if_pos hlastSlash, hdat, List.dropLast_concat]
    have hmkne : String.mk body ≠ "" :=
      fun hc => hbody (str_eq_empty_iff.mp hc)
    have hres2 : path_resolve (String.mk body) = "/cwd/" ++ String.mk body := by
      unfold path_resolve
      rw [if_neg hmkne, if_neg hhead]
    have happne : fol ++ f ≠ "" := by
      intro hc
      have hd := str_eq_empty_iff.mp hc
      rw [String.data_append, hdat] at hd
      simp at hd
    have happhead : (fol ++ f).data.head? ≠ some '/' := by
      rw [String.data_append, List.head?_append, hfolHead]
      cases hb : body.head? with
      | none => exact absurd (List.head?_eq_none_iff.mp hb) hbody
      | some x =>
        rw [hb] at hhead
        simpa using fun hx => hhead (by rw [hx])
    have hres1 : path_resolve (fol ++ f) = "/cwd/" ++ (fol ++ f) := by
      unfold path_resolve
      rw [if_neg happne, if_neg happhead]
    have hcwdne : ("/cwd/" ++ String.mk body) ≠ "" := by
      intro hc
      have hd := str_eq_empty_iff.mp hc
      rw [String.data_append] at hd
      simp at hd
    have hcwdlast : ("/cwd/" ++ String.mk body).data.getLast? ≠ some '/' := by
      rw [String.data_append, List.getLast?_append]
      cases hb : body.getLast? with
      | none => exact absurd (List.getLast?_eq_none_iff.mp hb) hbody
      | some x =>
        rw [hb] at hlast
        simpa using fun hx => hlast (by rw [hx])
    have hjoin2 : path_join ("/cwd/" ++ String.mk body) f
        = ("/cwd/" ++ String.mk body) ++ "/" ++ f := by
      unfold path_join
      rw [if_neg hcwdne, if_neg hcwdlast]
    rw [hjoin, hstrip, hres2, hres1, hjoin2]
    apply String.ext
    simp [hdat]

theorem resolveHandlerStep_exists {fs : FileSys} (hco : FSCoherent fs)
    (bft handler : String) {acc acc1 : List String}
    (hamb : fallbackAmbiguous fs handler = false)
    (hacc : ∀ p ∈ acc, fs.existsFile p = true)
    (hok : resolveHandlerStep fs bft handler acc = Except.ok acc1) :
    ∀ p ∈ acc1, fs.existsFile p = true := by
  have haccStep : ∀ p ∈ (findEntriesSpecified fs (EntrySpec.list [handler])).foldl
      (fun a entry => setAdd a (path_resolve entry)) acc, fs.existsFile p = true := by
    intro p hp
    rcases mem_foldl_setAdd path_resolve _ acc p hp with h | ⟨e, he, rfl⟩
    · exact hacc p h
    · rw [findEntriesSpecified_single] at he
      exact hco.glob_exists handler e he
  unfold resolveHandlerStep at hok
  dsimp only at hok
  by_cases hz : (findEntriesSpecified fs (EntrySpec.list [handler])).length = 0
  · rw [if_pos hz] at hok
    have hnil : findEntriesSpecified fs (EntrySpec.list [handler]) = [] :=
      List.length_eq_zero.mp hz
    rw [hnil] at hok
    simp only [List.foldl_nil] at hok
    unfold fallbackAmbiguous at hamb
    rw [hnil] at hamb
    simp only [List.length_nil] at hamb
    rw [show (decide True) = true from rfl, Bool.true_and] at hamb
    cases hhm : handlerMatch handler with
    | none =>
      rw [hhm] at hok
      simp only [Except.ok.injEq] at hok
      subst hok
      exact hacc
    | some pr =>
      obtain ⟨hn, fol⟩ := pr
      rw [hhm] at hok
      rw [hhm] at hamb
      dsimp only at hok
      dsimp only at hamb
      cases hrd : fs.readdir (path_resolve (stripTrailingSlash fol)) with
      | none =>
        rw [hrd] at hok
        exact absurd hok (by simp)
      | some files =>
        rw [hrd] at hok
        rw [hrd] at hamb
        dsimp only at hok
        have hgt : ¬ ((files.filter (fun file => strStartsWith file
            (String.mk (removeFirstOcc hn.data fol.data)))).length > 1) :=
          of_decide_eq_false hamb
        rw [if_neg hgt] at hok
        cases hfil : files.filter (fun file => strStartsWith file
            (String.mk (removeFirstOcc hn.data fol.data))) with
        | nil =>
          rw [hfil] at hok
          exact absurd hok (by simp)
        | cons f0 rest0 =>
          rw [hfil] at hok
          simp only [Except.ok.injEq] at hok
          subst hok
          intro p hp
          rcases mem_setAdd.mp hp with h | rfl
          · exact hacc p h
          · have hf0fil : f0 ∈ files.filter (fun file => strStartsWith file
                (String.mk (removeFirstOcc hn.data fol.data))) := by
              rw [hfil]
              exact List.mem_cons_self ..
            have hf0 : f0 ∈ files := (List.mem_filter.mp hf0fil).1
            obtain ⟨hf0ne, hf0head⟩ := hco.readdir_names _ _ _ hrd hf0
            rw [resolve_join_eq fol f0 (handlerMatch_folder_shape hhm) hf0ne hf0head]
            exact hco.readdir_exists _ _ _ hrd hf0
  · rw [if_neg hz] at hok
    simp only [Except.ok.injEq] at hok
    subst hok
    exact haccStep

theorem resolvedEntriesLoop_exists {fs : FileSys} (hco : FSCoherent fs) (bft L : String) :
    ∀ (funcs : List SlsFunction) (acc out : List String),
      (∀ handler layers sl, SlsFunction.handlerFn handler layers sl ∈ funcs →
        fallbackAmbiguous fs handler = false) →
      (∀ p ∈ acc, fs.existsFile p = true) →
      resolvedEntriesLoop fs bft L funcs acc = Except.ok out →
      ∀ p ∈ out, fs.existsFile p = true := by
  intro funcs
  induction funcs with
  | nil =>
    intro acc out _ hacc hok
    simp only [resolvedEntriesLoop, Except.ok.injEq] at hok
    subst hok
    exact hacc
  | cons fdecl rest ih =>
    intro acc out hnamb hacc hok
    have hnambRest : ∀ handler layers sl, SlsFunction.handlerFn handler layers sl ∈ rest →
        fallbackAmbiguous fs handler = false :=
      fun h l s hm => hnamb h l s (List.mem_cons_of_mem _ hm)
    cases fdecl with
    | image =>
      simp only [resolvedEntriesLoop] at hok
      exact ih acc out hnambRest hacc hok
    | handlerFn handler layers sl =>
      cases sl with
      | false =>
        simp only [resolvedEntriesLoop, Bool.not_false, if_true] at hok
        exact ih acc out hnambRest hacc hok
      | true =>
        cases hany : layers.any (fun layer => layer == L) with
        | false =>
          simp only [resolvedEntriesLoop, hany, Bool.not_true, Bool.not_false,
            Bool.false_eq_true, if_false, if_true] at hok
          exact ih acc out hnambRest hacc hok
        | true =>
          simp only [resolvedEntriesLoop, hany, Bool.not_true,
            Bool.false_eq_true, if_false] at hok
          cases hstep : resolveHandlerStep fs bft handler acc with
          | error e =>
            rw [hstep] at hok
            exact absurd hok (by simp)
          | ok acc1 =>
            rw [hstep] at hok
            have hacc1 := resolveHandlerStep_exists hco bft handler
              (hnamb handler layers true (List.mem_cons_self ..)) hacc hstep
            exact ih acc1 out hnambRest hacc1 hok

/-- C5 amended: assuming the filesystem is coherent (glob reports existing
paths, directory listings join to existing paths, entry names are sane),
every `EntryPath` returned by `resolvedEntries` exists on disk provided no
declared handler reaches the ambiguous fallback branch (more than one
directory entry sharing the computed prefix); that branch appends
`.<backupFileType>` without checking existence and can return a
non-existent path (see the counterexample). -/
theorem resolvedEntries_exists_of_unambiguous (fs : FileSys) (sls : Sls) (L : String)
    (out : List String) (hco : FSCoherent fs)
    (hnamb : ∀ handler layers sl, SlsFunction.handlerFn handler layers sl ∈ sls.functions →
      fallbackAmbiguous fs handler = false)
    (hok : resolvedEntries fs sls L = Except.ok out) :
    ∀ p ∈ out, fs.existsFile p = true :=
  resolvedEntriesLoop_exists hco (sls.backupFileType.getD "default") L sls.functions [] out
    hnamb (by intro p hp; cases hp) hok

theorem fsGlob_coherent : FSCoherent fsGlob := by
  refine ⟨?_, ?_, ?_⟩
  · intro pat e _
    rfl
  · intro d files f hd _
    exact absurd hd (by simp [fsGlob])
  · intro d files f hd _
    exact absurd hd (by simp [fsGlob])

/-- C5 witness: the amended theorem applied to a coherent filesystem where
the glob finds `hello.js` for the one declared handler; the resolved entry
`/cwd/src/hello.js` exists. -/
theorem resolvedEntries_exists_of_unambiguous_witness :
    resolvedEntries fsGlob slsPlugin "L" = Except.ok ["/cwd/src/hello.js"] ∧
      fsGlob.existsFile "/cwd/src/hello.js" = true :=
  ⟨by rfl,
    resolvedEntries_exists_of_unambiguous fsGlob slsPlugin "L" ["/cwd/src/hello.js"]
      fsGlob_coherent
      (by
        intro handler layers sl hm
        rcases List.mem_singleton.mp hm with heq
        injection heq with h1 h2 h3
        subst h1
        rfl)
      (by rfl) "/cwd/src/hello.js" (List.mem_singleton.mpr rfl)⟩

theorem cex5FS_coherent : FSCoherent cex5FS := by
  refine ⟨?_, ?_, ?_⟩
  · intro pat e he
    simp [globPromise, cex5FS] at he
  · intro d files f hd hf
    revert hd
    show (if d = "/cwd/src" then some ["hello.json", "hello.txt"] else none) = some files → _
    split
    · intro h
      injection h with h
      subst h
      subst d
      rcases List.mem_cons.mp hf with rfl | hf2
      · decide
      · rcases List.mem_singleton.mp hf2 with rfl
        decide
    · intro h; cases h
  · intro d files f hd hf
    revert hd
    show (if d = "/cwd/src" then some ["hello.json", "hello.txt"] else none) = some files → _
    split
    · intro h
      injection h with h
      subst h
      rcases List.mem_cons.mp hf with rfl | hf2
      · decide
      · rcases List.mem_singleton.mp hf2 with rfl
        decide
    · intro h; cases h

/-- C5 counterexample: on the coherent filesystem `cex5FS` (directory
`src` holds `hello.json` and `hello.txt`, both matching the prefix
`hello`, and no source file matches the glob), resolving layer `L` for the
handler `src/hello.handler` takes the ambiguous fallback branch and
returns the path `/cwd/src/hello.default`, which does not exist on disk —
refuting the claim that every returned `EntryPath` exists. -/
theorem resolvedEntries_nonexistent_path :
    resolvedEntries cex5FS cex5Sls "L" = Except.ok ["/cwd/src/hello.default"] ∧
      cex5FS.existsFile "/cwd/src/hello.default" = false ∧
      FSCoherent cex5FS :=
  ⟨by rfl, by decide, cex5FS_coherent⟩
